import Mathlib

/-!
# MultiCEX-TradingBot — verification of the core numeric and control logic

Shallow embedding of the repository's core modules:

* `core/quant.py` — decimal truncation (`dquant`)
* `core/strategy.py` — gap-mode price selection and order sizing
* `core/drain.py` — dust threshold and the drain loop's stop decision
* `core/adapters/gate_v4.py`, `core/adapters/htx.py` — retry wrapper and
  transient-error classifiers, HTX balances
* `core/exchange_proxy.py` — adapter registry

Python `Decimal` values are modelled as exact rationals (`ℚ`); the explicit
rounding operations the code performs (`dquant`'s floor-division truncation
and `.quantize(Decimal("1e-18"), rounding=ROUND_DOWN)`) are modelled
explicitly.  `Decimal`'s `//` operator and `ROUND_DOWN` both truncate toward
zero, which `truncz` captures.
-/

namespace MultiCEX

/-- Truncation toward zero of a rational to an integer: the rounding used by
Python `Decimal.__floordiv__` and by `ROUND_DOWN`. -/
def truncz (x : ℚ) : ℤ :=
  if 0 ≤ x then ⌊x⌋ else ⌈x⌉

/-- Embeds `core/quant.py::dquant`: quantization step `q = 1` when `prec <= 0`,
else `q = 10^(-prec)`; result is `(x // q) * q` with `//` truncating toward
zero. -/
def dquant (x : ℚ) (prec : ℤ) : ℚ :=
  let q : ℚ := if prec ≤ 0 then 1 else 1 / 10 ^ prec.toNat
  (truncz (x / q) : ℚ) * q

/-- The quantization step used by `dquant` at precision `prec`. -/
def dstep (prec : ℤ) : ℚ :=
  if prec ≤ 0 then 1 else 1 / 10 ^ prec.toNat

lemma dquant_eq_truncz_mul (x : ℚ) (prec : ℤ) :
    dquant x prec = (truncz (x / dstep prec) : ℚ) * dstep prec := rfl

lemma dstep_pos (prec : ℤ) : 0 < dstep prec := by
  unfold dstep
  split
  · norm_num
  · positivity

lemma truncz_le_of_nonneg {x : ℚ} (h : 0 ≤ x) : (truncz x : ℚ) ≤ x := by
  unfold truncz
  rw [if_pos h]
  exact Int.floor_le x

lemma truncz_nonneg {x : ℚ} (h : 0 ≤ x) : 0 ≤ (truncz x : ℚ) := by
  unfold truncz
  rw [if_pos h]
  exact_mod_cast Int.floor_nonneg.mpr h

lemma le_truncz_of_nonpos {x : ℚ} (h : x ≤ 0) : x ≤ (truncz x : ℚ) := by
  unfold truncz
  split
  · rename_i hx
    have hx0 : x = 0 := le_antisymm h hx
    subst hx0
    norm_num
  · exact Int.le_ceil x

lemma truncz_nonpos {x : ℚ} (h : x ≤ 0) : (truncz x : ℚ) ≤ 0 := by
  unfold truncz
  split
  · rename_i hx
    have hx0 : x = 0 := le_antisymm h hx
    subst hx0
    norm_num
  · have : ⌈x⌉ ≤ (0 : ℤ) := Int.ceil_le.mpr (by exact_mod_cast h)
    exact_mod_cast this

lemma abs_truncz_le (x : ℚ) : |(truncz x : ℚ)| ≤ |x| := by
  rcases le_or_lt 0 x with h | h
  · rw [abs_of_nonneg h, abs_of_nonneg (truncz_nonneg h)]
    exact truncz_le_of_nonneg h
  · rw [abs_of_neg h, abs_of_nonpos (truncz_nonpos h.le)]
    exact neg_le_neg (le_truncz_of_nonpos h.le)

lemma truncz_intCast (n : ℤ) : truncz (n : ℚ) = n := by
  unfold truncz
  split <;> simp

/-- The function `dquant` never exceeds a nonnegative input. -/
lemma dquant_le {x : ℚ} (prec : ℤ) (h : 0 ≤ x) : dquant x prec ≤ x := by
  rw [dquant_eq_truncz_mul]
  have hq := dstep_pos prec
  have hxq : 0 ≤ x / dstep prec := div_nonneg h hq.le
  calc (truncz (x / dstep prec) : ℚ) * dstep prec
      ≤ (x / dstep prec) * dstep prec :=
        mul_le_mul_of_nonneg_right (truncz_le_of_nonneg hxq) hq.le
    _ = x := div_mul_cancel₀ x hq.ne'

lemma dquant_nonneg {x : ℚ} (prec : ℤ) (h : 0 ≤ x) : 0 ≤ dquant x prec := by
  rw [dquant_eq_truncz_mul]
  have hq := dstep_pos prec
  exact mul_nonneg (truncz_nonneg (div_nonneg h hq.le)) hq.le

lemma abs_dquant_le (x : ℚ) (prec : ℤ) : |dquant x prec| ≤ |x| := by
  rw [dquant_eq_truncz_mul]
  have hq := dstep_pos prec
  rw [abs_mul, abs_of_pos hq]
  calc |(truncz (x / dstep prec) : ℚ)| * dstep prec
      ≤ |x / dstep prec| * dstep prec :=
        mul_le_mul_of_nonneg_right (abs_truncz_le _) hq.le
    _ = |x| / dstep prec * dstep prec := by rw [abs_div, abs_of_pos hq]
    _ = |x| := div_mul_cancel₀ _ hq.ne'

lemma dquant_idem (x : ℚ) (prec : ℤ) :
    dquant (dquant x prec) prec = dquant x prec := by
  rw [dquant_eq_truncz_mul (dquant x prec), dquant_eq_truncz_mul x]
  have hq := dstep_pos prec
  have h2 : (truncz (x / dstep prec) : ℚ) * dstep prec / dstep prec
      = (truncz (x / dstep prec) : ℚ) := mul_div_cancel_right₀ _ hq.ne'
  rw [h2, truncz_intCast]

lemma ge_dquant_of_nonpos {x : ℚ} (prec : ℤ) (h : x ≤ 0) : x ≤ dquant x prec := by
  rw [dquant_eq_truncz_mul]
  have hq := dstep_pos prec
  have hxq : x / dstep prec ≤ 0 := div_nonpos_of_nonpos_of_nonneg h hq.le
  calc x = x / dstep prec * dstep prec := (div_mul_cancel₀ x hq.ne').symm
    _ ≤ (truncz (x / dstep prec) : ℚ) * dstep prec :=
        mul_le_mul_of_nonneg_right (le_truncz_of_nonpos hxq) hq.le

lemma dquant_nonpos_prec {x : ℚ} {prec : ℤ} (h : prec ≤ 0) :
    dquant x prec = (truncz x : ℚ) := by
  unfold dquant
  simp [h]

/-- C8: For every `x ≥ 0` and precision `p`, `dquant x p ≤ x`; for `p > 0`
the result is an integer multiple of `10^(-p)` (hence has at most `p`
fractional digits); and `dquant` is idempotent at every input, negative
ones included. -/
theorem C8_dquant_le_multiple_idem (x : ℚ) (p : ℤ) (hx : 0 ≤ x) :
    dquant x p ≤ x ∧
    (0 < p → ∃ n : ℤ, dquant x p = (n : ℚ) * (1 / 10 ^ p.toNat)) ∧
    (∀ y : ℚ, dquant (dquant y p) p = dquant y p) := by
  refine ⟨dquant_le p hx, ?_, fun y => dquant_idem y p⟩
  intro hp
  refine ⟨truncz (x / dstep p), ?_⟩
  rw [dquant_eq_truncz_mul]
  unfold dstep
  rw [if_neg (not_le.mpr hp)]

theorem C8_dquant_le_multiple_idem_witness :
    (0 : ℚ) ≤ 7/5 ∧
    (dquant (7/5) 1 ≤ 7/5 ∧
     (0 < (1 : ℤ) → ∃ n : ℤ, dquant (7/5) 1 = (n : ℚ) * (1 / 10 ^ (1 : ℤ).toNat)) ∧
     (∀ y : ℚ, dquant (dquant y 1) 1 = dquant y 1)) :=
  ⟨by norm_num, C8_dquant_le_multiple_idem (7/5) 1 (by norm_num)⟩

/-- C9: `dquant` truncates toward zero at every sign: `|dquant x p| ≤ |x|`
for all `x`, so for negative `x`, `dquant x p ≥ x`; and every precision
`p ≤ 0` truncates to a whole integer (step 1), the function being total
(never an error). -/
theorem C9_dquant_toward_zero_and_int (x : ℚ) (p : ℤ) :
    |dquant x p| ≤ |x| ∧
    (x < 0 → x ≤ dquant x p) ∧
    (p ≤ 0 → dquant x p = (truncz x : ℚ)) := by
  exact ⟨abs_dquant_le x p, fun hx => ge_dquant_of_nonpos p hx.le,
    fun hp => dquant_nonpos_prec hp⟩

theorem C9_dquant_toward_zero_and_int_witness :
    |dquant (-(3/2)) 0| ≤ |(-(3/2) : ℚ)| ∧
    (-(3/2) : ℚ) ≤ dquant (-(3/2)) 0 ∧
    dquant (-(3/2)) 0 = (truncz (-(3/2)) : ℚ) :=
  ⟨(C9_dquant_toward_zero_and_int (-(3/2)) 0).1,
   (C9_dquant_toward_zero_and_int (-(3/2)) 0).2.1 (by norm_num),
   (C9_dquant_toward_zero_and_int (-(3/2)) 0).2.2 le_rfl⟩

/-! ## `core/strategy.py` — fee buffer, 1e-18 quantization, gap-mode price
selection, and the order-sizing pipeline of `_prepare_and_place`
(lines 130–164). -/

/-- Embeds `core/strategy.py::FEE_BUFFER = Decimal("0.9985")`. -/
def FEE_BUFFER : ℚ := 9985 / 10000

/-- Embeds `.quantize(Decimal("1e-18"), rounding=ROUND_DOWN)`: truncation toward
zero at 18 fractional digits. -/
def quantize18 (x : ℚ) : ℚ := (truncz (x * 10 ^ 18) : ℚ) / 10 ^ 18

/-- One quantization step of `quantize18`. -/
def eps18 : ℚ := 1 / 10 ^ 18

lemma quantize18_le {x : ℚ} (h : 0 ≤ x) : quantize18 x ≤ x := by
  unfold quantize18
  rw [div_le_iff₀ (by positivity : (0:ℚ) < 10 ^ 18)]
  exact truncz_le_of_nonneg (by positivity)

lemma quantize18_nonneg {x : ℚ} (h : 0 ≤ x) : 0 ≤ quantize18 x := by
  unfold quantize18
  have := truncz_nonneg (x := x * 10 ^ 18) (by positivity)
  positivity

lemma lt_quantize18_add_eps {x : ℚ} (h : 0 ≤ x) : x < quantize18 x + eps18 := by
  unfold quantize18 eps18 truncz
  rw [if_pos (by positivity : (0:ℚ) ≤ x * 10 ^ 18)]
  have hfl : x * 10 ^ 18 < ⌊x * 10 ^ 18⌋ + 1 := Int.lt_floor_add_one _
  have hE : (0:ℚ) < 10 ^ 18 := by positivity
  rw [div_add_div_same, lt_div_iff₀ hE]
  linarith

/-- The outcome of `_compute_base_and_target` (`core/strategy.py`,
lines 37–61): base price, target price, gap percentage and the price
source tag (`"close_1m"` or `"last"`). -/
structure PriceDecision where
  base_price : ℚ
  target_price : ℚ
  gap_pct : ℚ
  src : String
  deriving Repr, DecidableEq

/-- Embeds line 42 of `_compute_base_and_target`: `gap_pct` is
`(prev_close - last) / prev_close * 100` when `prev_close > 0`, else `0`. -/
def gap_pct_calc (prev_close last : ℚ) : ℚ :=
  if 0 < prev_close then (prev_close - last) / prev_close * 100 else 0

/-- Embeds `core/strategy.py::_compute_base_and_target`, with the two adapter
reads (`prev_close`, `last`) passed in as values: `down_only` substitutes
`last` when `gap_pct > gap_switch_pct`, `symmetric` when
`abs gap_pct > gap_switch_pct`; any other mode never substitutes;
`target_price = base_price * (1 - deviation_pct / 100)`. -/
def compute_base_and_target (prev_close last : ℚ) (gap_mode : String)
    (gap_switch_pct deviation_pct : ℚ) : PriceDecision :=
  let gap_pct : ℚ := gap_pct_calc prev_close last
  let sub : Bool :=
    if gap_mode = "down_only" then decide (gap_switch_pct < gap_pct)
    else if gap_mode = "symmetric" then decide (gap_switch_pct < |gap_pct|)
    else false
  let base_price := if sub then last else prev_close
  { base_price := base_price
    target_price := base_price * (1 - deviation_pct / 100)
    gap_pct := gap_pct
    src := if sub then "last" else "close_1m" }

/-- C3: Gap-mode price selection: with `off`, `base_price = prev_close`
always; with `down_only`, the base is substituted with `last` iff
`gap_pct > gap_switch_pct` (strict); with `symmetric`, iff
`abs gap_pct > gap_switch_pct`; `gap_pct` is
`(prev_close - last)/prev_close*100` when `prev_close > 0` and `0`
otherwise; `target_price = base_price * (1 - deviation_pct/100)` in every
mode. -/
theorem C3_gap_mode_selection (prev_close last gap_switch_pct deviation_pct : ℚ) :
    (∀ mode : String,
      (compute_base_and_target prev_close last mode gap_switch_pct deviation_pct).gap_pct = gap_pct_calc prev_close last ∧
      (compute_base_and_target prev_close last mode gap_switch_pct deviation_pct).target_price
        = (compute_base_and_target prev_close last mode gap_switch_pct deviation_pct).base_price
          * (1 - deviation_pct / 100)) ∧
    ((compute_base_and_target prev_close last "off" gap_switch_pct deviation_pct).base_price
        = prev_close ∧
     (compute_base_and_target prev_close last "off" gap_switch_pct deviation_pct).src
        = "close_1m") ∧
    ((compute_base_and_target prev_close last "down_only" gap_switch_pct deviation_pct).base_price
        = (if gap_switch_pct < gap_pct_calc prev_close last then last else prev_close) ∧
     ((compute_base_and_target prev_close last "down_only" gap_switch_pct deviation_pct).src
        = "last" ↔ gap_switch_pct < gap_pct_calc prev_close last)) ∧
    ((compute_base_and_target prev_close last "symmetric" gap_switch_pct deviation_pct).base_price
        = (if gap_switch_pct < |gap_pct_calc prev_close last| then last else prev_close) ∧
     ((compute_base_and_target prev_close last "symmetric" gap_switch_pct deviation_pct).src
        = "last" ↔ gap_switch_pct < |gap_pct_calc prev_close last|)) := by
  refine ⟨fun mode => ⟨rfl, rfl⟩, ⟨rfl, rfl⟩, ⟨?_, ?_⟩, ⟨?_, ?_⟩⟩ <;>
    unfold compute_base_and_target <;> simp only [] <;>
    by_cases h1 : gap_switch_pct < gap_pct_calc prev_close last <;>
      simp_all [gap_pct_calc, String.reduceEq]

/-! ### Order sizing (`_prepare_and_place`, lines 130–164)

The pipeline acts on a pair `(amount_base, order_quote_value)`.  The two
affordability clamps (lines 145–148 and 162–164) run identical code, so they
are one definition applied twice.  Note line 155 updates `amount_base`
without recomputing `order_quote_value` — the embedding reproduces that. -/

/-- The sizing-relevant fields of the pair config and symbol rules used by
`_prepare_and_place`: `cfg["lot_size_base"]`, `cfg["quote"]`, and the
`min_base`, `min_quote`, `aprec` parts of the pair rules. -/
structure SizingIn where
  lot_size_base : ℚ
  quote : ℚ
  min_base : ℚ
  min_quote : ℚ
  aprec : ℤ

/-- Lines 132–139: initial `(amount_base, order_quote_value)`.  With
`lot_size_base > 0` the amount is the quantized lot size; otherwise it is
the quantized `plan_quote / target_price` where `plan_quote` is the
configured quote budget, defaulting to `avail_quote * FEE_BUFFER`. -/
def initial_amount (cfg : SizingIn) (avail_quote tp : ℚ) : ℚ × ℚ :=
  if 0 < cfg.lot_size_base then
    let a := dquant cfg.lot_size_base cfg.aprec
    (a, quantize18 (a * tp))
  else
    let plan_quote :=
      if 0 < cfg.quote then cfg.quote else quantize18 (avail_quote * FEE_BUFFER)
    let raw := quantize18 (plan_quote / tp)
    let a := dquant raw cfg.aprec
    (a, quantize18 (a * tp))

/-- Lines 145–148 (and identically 162–164): if `order_quote_value`
exceeds `max_affordable_quote` (and `target_price > 0`), replace the
amount by the quantized `max_affordable_quote / target_price` and
recompute the notional. -/
def clamp_step (aprec : ℤ) (M tp : ℚ) (s : ℚ × ℚ) : ℚ × ℚ :=
  if M < s.2 ∧ 0 < tp then
    let a := dquant (quantize18 (M / tp)) aprec
    (a, quantize18 (a * tp))
  else s

/-- Lines 151–155: if `min_quote` is nonzero and the notional is below it,
raise the amount to `max (min adj_amount max_amount) amount_base`;
`order_quote_value` is left stale (the source does not recompute it
here). -/
def min_quote_step (cfg : SizingIn) (M tp : ℚ) (s : ℚ × ℚ) : ℚ × ℚ :=
  if cfg.min_quote ≠ 0 ∧ s.2 < cfg.min_quote ∧ 0 < tp then
    let need := quantize18 (cfg.min_quote / tp)
    let adj := dquant need cfg.aprec
    let maxa := dquant (quantize18 (M / tp)) cfg.aprec
    (max (min adj maxa) s.1, s.2)
  else s

/-- Lines 157–159: if `min_base` is nonzero and the amount is below it,
raise the amount to `min_base` and recompute the notional. -/
def min_base_step (cfg : SizingIn) (tp : ℚ) (s : ℚ × ℚ) : ℚ × ℚ :=
  if cfg.min_base ≠ 0 ∧ s.1 < cfg.min_base then
    (cfg.min_base, quantize18 (cfg.min_base * tp))
  else s

/-- Lines 130–164 in order: initial sizing, affordability clamp,
min-quote raise, min-base raise, second affordability clamp. -/
def prepare_amount (cfg : SizingIn) (avail_quote tp : ℚ) : ℚ × ℚ :=
  let M := quantize18 (avail_quote * FEE_BUFFER)
  clamp_step cfg.aprec M tp
    (min_base_step cfg tp
      (min_quote_step cfg M tp
        (clamp_step cfg.aprec M tp
          (initial_amount cfg avail_quote tp))))

/-- Invariant maintained through the sizing pipeline: the amount is
nonnegative, and the recorded notional is either the true quantized
notional of the current amount, or the amount is already affordable. -/
def SizeInv (M tp : ℚ) (s : ℚ × ℚ) : Prop :=
  0 ≤ s.1 ∧ (s.2 = quantize18 (s.1 * tp) ∨ s.1 * tp ≤ M)

lemma clamp_amount_le {aprec : ℤ} {M tp : ℚ} (hM : 0 ≤ M) (htp : 0 < tp) :
    dquant (quantize18 (M / tp)) aprec * tp ≤ M := by
  have h0 : 0 ≤ M / tp := div_nonneg hM htp.le
  have h1 : dquant (quantize18 (M / tp)) aprec ≤ quantize18 (M / tp) :=
    dquant_le aprec (quantize18_nonneg h0)
  have h2 : quantize18 (M / tp) ≤ M / tp := quantize18_le h0
  calc dquant (quantize18 (M / tp)) aprec * tp
      ≤ (M / tp) * tp := mul_le_mul_of_nonneg_right (le_trans h1 h2) htp.le
    _ = M := div_mul_cancel₀ M htp.ne'

lemma clamp_amount_nonneg {aprec : ℤ} {M tp : ℚ} (hM : 0 ≤ M) (htp : 0 < tp) :
    0 ≤ dquant (quantize18 (M / tp)) aprec :=
  dquant_nonneg aprec (quantize18_nonneg (div_nonneg hM htp.le))

lemma initial_amount_inv (cfg : SizingIn) {avail_quote tp M : ℚ}
    (hq : 0 ≤ avail_quote) (htp : 0 < tp) :
    SizeInv M tp (initial_amount cfg avail_quote tp) := by
  unfold initial_amount SizeInv
  have hFB : (0:ℚ) ≤ FEE_BUFFER := by unfold FEE_BUFFER; norm_num
  split
  · rename_i hlot
    exact ⟨dquant_nonneg _ hlot.le, Or.inl rfl⟩
  · refine ⟨dquant_nonneg _ (quantize18_nonneg (div_nonneg ?_ htp.le)), Or.inl rfl⟩
    split
    · rename_i hquote; exact hquote.le
    · exact quantize18_nonneg (mul_nonneg hq hFB)

lemma clamp_step_inv {aprec : ℤ} {M tp : ℚ} {s : ℚ × ℚ}
    (hM : 0 ≤ M) (htp : 0 < tp) (h : SizeInv M tp s) :
    SizeInv M tp (clamp_step aprec M tp s) := by
  unfold clamp_step
  split
  · exact ⟨clamp_amount_nonneg hM htp, Or.inl rfl⟩
  · exact h

lemma min_quote_step_inv (cfg : SizingIn) {M tp : ℚ} {s : ℚ × ℚ}
    (hM : 0 ≤ M) (htp : 0 < tp) (h : SizeInv M tp s) :
    SizeInv M tp (min_quote_step cfg M tp s) := by
  unfold min_quote_step
  split
  · rename_i hcond
    dsimp only
    refine ⟨le_trans h.1 (le_max_right _ _), ?_⟩
    rcases max_choice
        (min (dquant (quantize18 (cfg.min_quote / tp)) cfg.aprec)
          (dquant (quantize18 (M / tp)) cfg.aprec)) s.1 with hmax | hmax
    · rw [hmax]
      refine Or.inr ?_
      have h1 : min (dquant (quantize18 (cfg.min_quote / tp)) cfg.aprec)
            (dquant (quantize18 (M / tp)) cfg.aprec)
          ≤ dquant (quantize18 (M / tp)) cfg.aprec := min_le_right _ _
      have h2 : dquant (quantize18 (M / tp)) cfg.aprec * tp ≤ M :=
        clamp_amount_le hM htp
      calc min (dquant (quantize18 (cfg.min_quote / tp)) cfg.aprec)
              (dquant (quantize18 (M / tp)) cfg.aprec) * tp
          ≤ dquant (quantize18 (M / tp)) cfg.aprec * tp :=
            mul_le_mul_of_nonneg_right h1 htp.le
        _ ≤ M := h2
    · rw [hmax]
      exact h.2
  · exact h

lemma min_base_step_inv (cfg : SizingIn) {M tp : ℚ} {s : ℚ × ℚ}
    (h : SizeInv M tp s) :
    SizeInv M tp (min_base_step cfg tp s) := by
  unfold min_base_step
  split
  · rename_i hcond
    exact ⟨le_trans h.1 hcond.2.le, Or.inl rfl⟩
  · exact h

lemma clamp_step_bound {aprec : ℤ} {M tp : ℚ} {s : ℚ × ℚ}
    (hM : 0 ≤ M) (htp : 0 < tp) (h : SizeInv M tp s) :
    (clamp_step aprec M tp s).1 * tp ≤ M + eps18 := by
  unfold clamp_step
  split
  · exact le_trans (clamp_amount_le hM htp) (by
      have : (0:ℚ) < eps18 := by unfold eps18; positivity
      linarith)
  · rename_i hcond
    have hle : s.2 ≤ M ∨ ¬ 0 < tp := by
      by_cases h2 : M < s.2
      · exact Or.inr fun ht => hcond ⟨h2, ht⟩
      · exact Or.inl (not_lt.mp h2)
    rcases hle with hle | hle
    · rcases h.2 with hv | hv
      · have := lt_quantize18_add_eps (mul_nonneg h.1 htp.le)
        rw [← hv] at this
        linarith
      · have : (0:ℚ) < eps18 := by unfold eps18; positivity
        linarith
    · exact absurd htp hle

/-- C1: Sizing clamp of `_prepare_and_place`: for every combination of
`lot_size_base`, configured quote budget, `min_base`, `min_quote`,
precision and available quote balance, with `target_price > 0`, the final
amount satisfies
`final_amount * target_price ≤ avail_quote * FEE_BUFFER + eps18`
(one 1e-18 quantization epsilon), including when the amount was raised to
meet `min_quote` or `min_base` and then re-clamped. -/
theorem C1_sizing_clamp (cfg : SizingIn) (avail_quote tp : ℚ)
    (hq : 0 ≤ avail_quote) (htp : 0 < tp) :
    (prepare_amount cfg avail_quote tp).1 * tp
      ≤ avail_quote * FEE_BUFFER + eps18 := by
  have hFB : (0:ℚ) ≤ FEE_BUFFER := by unfold FEE_BUFFER; norm_num
  have hMnn : 0 ≤ quantize18 (avail_quote * FEE_BUFFER) :=
    quantize18_nonneg (mul_nonneg hq hFB)
  have hMle : quantize18 (avail_quote * FEE_BUFFER) ≤ avail_quote * FEE_BUFFER :=
    quantize18_le (mul_nonneg hq hFB)
  have hinv : SizeInv (quantize18 (avail_quote * FEE_BUFFER)) tp
      (min_base_step cfg tp
        (min_quote_step cfg (quantize18 (avail_quote * FEE_BUFFER)) tp
          (clamp_step cfg.aprec (quantize18 (avail_quote * FEE_BUFFER)) tp
            (initial_amount cfg avail_quote tp)))) :=
    min_base_step_inv cfg
      (min_quote_step_inv cfg hMnn htp
        (clamp_step_inv hMnn htp (initial_amount_inv cfg hq htp)))
  have := @clamp_step_bound cfg.aprec _ _ _ hMnn htp hinv
  unfold prepare_amount
  simp only []
  linarith

theorem C1_sizing_clamp_witness :
    (0:ℚ) ≤ 100 ∧ (0:ℚ) < 50 ∧
    (prepare_amount ⟨0, 0, 0, 10, 3⟩ 100 50).1 * 50
      ≤ 100 * FEE_BUFFER + eps18 :=
  ⟨by norm_num, by norm_num,
   C1_sizing_clamp ⟨0, 0, 0, 10, 3⟩ 100 50 (by norm_num) (by norm_num)⟩

/-! ## `core/drain.py` — dust threshold and the drain loop's stop decision

`drain_base_position` (lines 45–140): the pre-loop threshold computation
(lines 78–102) and the per-iteration decision (lines 112–135) are modelled
as pure functions of the values the adapter calls return. -/

/-- Line 78: `eff_min_base = max(min_base, min_base_rule)`. -/
def eff_min_base (min_base min_base_rule : ℚ) : ℚ := max min_base min_base_rule

/-- Line 81: `min_step = Decimal(1).scaleb(-amount_prec)`. -/
def drain_min_step (amount_prec : ℤ) : ℚ := (10 : ℚ) ^ (-amount_prec)

/-- Lines 93–96: `min_quote / last_price` when both are positive, else 0. -/
def by_notional (min_quote last_price0 : ℚ) : ℚ :=
  if 0 < last_price0 ∧ 0 < min_quote then min_quote / last_price0 else 0

/-- Lines 98–102: `dust_base_threshold = max(eff_min_base, by_notional,
min_step)`. -/
def dust_base_threshold (min_base min_base_rule min_quote last_price0 : ℚ)
    (amount_prec : ℤ) : ℚ :=
  max (max (eff_min_base min_base min_base_rule)
        (by_notional min_quote last_price0))
    (drain_min_step amount_prec)

/-- What one drain-loop iteration does after the timeout check: either
stop (returning the remaining available balance) or market-sell the
quantized sellable amount. -/
inductive DrainDecision where
  | stop (remaining : ℚ)
  | sell (amount : ℚ)
  deriving Repr, DecidableEq

/-- Lines 112–135: quantize the available balance, recompute the
notional against the freshly fetched price (0 when the price is not
positive), and stop iff the sellable amount is below the dust threshold
or (`min_quote` nonzero AND the current price positive AND the notional
below `min_quote`); otherwise market-sell `sellable`. -/
def drain_loop_decision (dust_threshold min_quote : ℚ) (amount_prec : ℤ)
    (avail current_price : ℚ) : DrainDecision :=
  let sellable := dquant avail amount_prec
  let notional := if 0 < current_price then sellable * current_price else 0
  if sellable < dust_threshold ∨
      (min_quote ≠ 0 ∧ 0 < current_price ∧ notional < min_quote) then
    .stop avail
  else
    .sell sellable

/-- C2 (the claim fails on the code): at `min_base = min_base_rule = 0`,
`min_quote = 5`, setup price `10`, `amount_prec = 0`, the threshold is
`max (max 0 (5/10)) 1 = 1` as the claim computes it; but with available
balance `3` and current price `0` (price fetch failed), the sellable
amount is `3` with notional `3 * 0 = 0 < 5 = min_quote`, where the claim
requires a no-sell stop — yet the loop issues a market sell of `3`,
because the code's notional guard additionally requires
`current_price > 0`. -/
theorem C2_drain_failing_input_eval :
    dust_base_threshold 0 0 5 10 0 = 1 ∧
    dquant 3 0 = 3 ∧
    (0 : ℚ) < 5 ∧ dquant 3 0 * 0 < (5 : ℚ) ∧
    drain_loop_decision 1 5 0 3 0 = DrainDecision.sell 3 := by
  have hdq : dquant 3 0 = 3 := by norm_num [dquant, truncz]
  refine ⟨?_, hdq, by norm_num, ?_, ?_⟩
  · norm_num [dust_base_threshold, eff_min_base, by_notional, drain_min_step]
  · rw [hdq]; norm_num
  · simp only [drain_loop_decision, hdq]
    norm_num

/-! ## Retry wrapper (`core/adapters/gate_v4.py::_retryable`, lines 26–45)

The wrapper makes `attempts = max(1, RETRIES)` calls; a non-transient
error, or the error of the last attempt, propagates at once; otherwise it
sleeps (exponential backoff) and retries.  The model counts invocation
attempts and backoff sleeps. -/

/-- One invocation's outcome: a return value or a raised error. -/
inductive Attempt (ε α : Type) where
  | ok (v : α)
  | err (e : ε)

/-- The observable trace of a `_retryable`-wrapped call: its final
result, how many times the wrapped function was invoked, and how many
backoff sleeps happened. -/
structure RetryTrace (ε α : Type) where
  result : Except ε α
  attempts : ℕ
  sleeps : ℕ

/-- The `for i in range(attempts)` loop of `_retryable`;
`rem` is the number of attempts remaining after the current one (so the
current attempt is the last iff `rem = 0`, i.e. `i == attempts - 1`).
On an error that is transient and not on the last attempt, sleep and
retry; otherwise re-raise. -/
def retry_go {ε α : Type} (transient : ε → Bool) (fn : ℕ → Attempt ε α) :
    ℕ → ℕ → ℕ → RetryTrace ε α
  | rem, i, sleeps =>
    match fn i, rem with
    | .ok v, _ => ⟨.ok v, i + 1, sleeps⟩
    | .err e, 0 => ⟨.error e, i + 1, sleeps⟩
    | .err e, r + 1 =>
      if transient e then retry_go transient fn r (i + 1) (sleeps + 1)
      else ⟨.error e, i + 1, sleeps⟩
  termination_by rem => rem

/-- Embeds `_retryable` applied to a function (`attempts = max(1, int(RETRIES))`,
then the loop). -/
def retry_run {ε α : Type} (transient : ε → Bool) (retries : ℤ)
    (fn : ℕ → Attempt ε α) : RetryTrace ε α :=
  retry_go transient fn ((max 1 retries).toNat - 1) 0 0

lemma retry_go_ok {ε α : Type} {transient : ε → Bool} {fn : ℕ → Attempt ε α}
    {i : ℕ} {v : α} (h : fn i = .ok v) (rem sleeps : ℕ) :
    retry_go transient fn rem i sleeps = ⟨.ok v, i + 1, sleeps⟩ := by
  cases rem <;> simp [retry_go, h]

lemma retry_go_err_zero {ε α : Type} {transient : ε → Bool}
    {fn : ℕ → Attempt ε α} {i : ℕ} {e : ε} (h : fn i = .err e) (sleeps : ℕ) :
    retry_go transient fn 0 i sleeps = ⟨.error e, i + 1, sleeps⟩ := by
  simp [retry_go, h]

lemma retry_go_err_succ_true {ε α : Type} {transient : ε → Bool}
    {fn : ℕ → Attempt ε α} {i : ℕ} {e : ε} (h : fn i = .err e)
    (ht : transient e = true) (r sleeps : ℕ) :
    retry_go transient fn (r + 1) i sleeps
      = retry_go transient fn r (i + 1) (sleeps + 1) := by
  simp [retry_go, h, ht]

lemma retry_go_err_succ_false {ε α : Type} {transient : ε → Bool}
    {fn : ℕ → Attempt ε α} {i : ℕ} {e : ε} (h : fn i = .err e)
    (ht : transient e = false) (r sleeps : ℕ) :
    retry_go transient fn (r + 1) i sleeps = ⟨.error e, i + 1, sleeps⟩ := by
  simp [retry_go, h, ht]

lemma retry_go_attempts_le {ε α : Type} (transient : ε → Bool)
    (fn : ℕ → Attempt ε α) (rem : ℕ) :
    ∀ i sleeps, (retry_go transient fn rem i sleeps).attempts ≤ i + rem + 1 := by
  induction rem with
  | zero =>
    intro i sleeps
    cases hfn : fn i with
    | ok v => rw [retry_go_ok hfn]
    | err e => rw [retry_go_err_zero hfn]
  | succ r ih =>
    intro i sleeps
    cases hfn : fn i with
    | ok v => rw [retry_go_ok hfn]; dsimp only; omega
    | err e =>
      cases ht : transient e with
      | true =>
        rw [retry_go_err_succ_true hfn ht]
        have := ih (i + 1) (sleeps + 1)
        omega
      | false =>
        rw [retry_go_err_succ_false hfn ht]; dsimp only; omega

lemma retry_go_sleeps_lt {ε α : Type} (transient : ε → Bool)
    (fn : ℕ → Attempt ε α) (rem : ℕ) :
    ∀ i sleeps,
      (retry_go transient fn rem i sleeps).sleeps + i + 1
        ≤ (retry_go transient fn rem i sleeps).attempts + sleeps := by
  induction rem with
  | zero =>
    intro i sleeps
    cases hfn : fn i with
    | ok v => rw [retry_go_ok hfn]; dsimp only; omega
    | err e => rw [retry_go_err_zero hfn]; dsimp only; omega
  | succ r ih =>
    intro i sleeps
    cases hfn : fn i with
    | ok v => rw [retry_go_ok hfn]; dsimp only; omega
    | err e =>
      cases ht : transient e with
      | true =>
        rw [retry_go_err_succ_true hfn ht]
        have := ih (i + 1) (sleeps + 1)
        omega
      | false =>
        rw [retry_go_err_succ_false hfn ht]; dsimp only; omega

/-- The "fails `k` times then succeeds" wrapped function. -/
def fails_then_ok {ε α : Type} (k : ℕ) (e : ε) (v : α) : ℕ → Attempt ε α :=
  fun i => if i < k then .err e else .ok v

lemma retry_go_fails_then_ok {ε α : Type} (k : ℕ) (e : ε) (v : α) (rem : ℕ) :
    ∀ i sleeps,
      (retry_go (fun _ => true) (fails_then_ok k e v) rem i sleeps).result
        = if k ≤ i + rem then Except.ok v else Except.error e := by
  induction rem with
  | zero =>
    intro i sleeps
    by_cases hik : i < k
    · rw [retry_go_err_zero (e := e) (by simp [fails_then_ok, hik]) sleeps]
      dsimp only
      rw [if_neg (by omega)]
    · rw [retry_go_ok (v := v) (by simp [fails_then_ok, hik]) 0 sleeps]
      dsimp only
      rw [if_pos (by omega)]
  | succ r ih =>
    intro i sleeps
    by_cases hik : i < k
    · rw [retry_go_err_succ_true (e := e) (by simp [fails_then_ok, hik]) rfl r sleeps]
      rw [ih (i + 1) (sleeps + 1)]
      by_cases hk2 : k ≤ i + 1 + r
      · rw [if_pos hk2, if_pos (by omega)]
      · rw [if_neg hk2, if_neg (by omega)]
    · rw [retry_go_ok (v := v) (by simp [fails_then_ok, hik]) (r + 1) sleeps]
      dsimp only
      rw [if_pos (by omega)]

/-- C4: Retry policy of `_retryable` with budget `RETRIES ≥ 1`: with a
classifier marking every error transient, a function failing `k` times
then succeeding returns the success value iff `k < RETRIES`; for every
wrapped function and classifier, the number of invocation attempts never
exceeds `max 1 RETRIES` and every backoff sleep is followed by another
attempt (so no sleep after the final attempt); and a first error
classified non-transient propagates with exactly one attempt. -/
theorem C4_retry_policy {ε α : Type} (retries : ℤ) (h1 : 1 ≤ retries)
    (e : ε) (v : α) (k : ℕ) :
    ((retry_run (fun _ => true) retries (fails_then_ok k e v)).result
        = Except.ok v ↔ (k : ℤ) < retries) ∧
    (∀ (transient : ε → Bool) (fn : ℕ → Attempt ε α),
      ((retry_run transient retries fn).attempts : ℤ) ≤ max 1 retries) ∧
    (∀ (transient : ε → Bool) (fn : ℕ → Attempt ε α),
      (retry_run transient retries fn).sleeps
        < (retry_run transient retries fn).attempts) ∧
    (∀ (transient : ε → Bool) (fn : ℕ → Attempt ε α),
      fn 0 = .err e → transient e = false →
      (retry_run transient retries fn).result = Except.error e ∧
      (retry_run transient retries fn).attempts = 1) := by
  have hmax : max 1 retries = retries := max_eq_right h1
  have htn : ((max 1 retries).toNat : ℤ) = retries := by
    rw [hmax]; exact Int.toNat_of_nonneg (le_trans zero_le_one h1)
  have htn1 : 1 ≤ (max 1 retries).toNat := by omega
  refine ⟨?_, ?_, ?_, ?_⟩
  · unfold retry_run
    rw [retry_go_fails_then_ok]
    constructor
    · intro hok
      by_contra hk
      rw [if_neg (by omega)] at hok
      exact Except.noConfusion hok
    · intro hk
      rw [if_pos (by omega)]
  · intro transient fn
    unfold retry_run
    have := retry_go_attempts_le transient fn ((max 1 retries).toNat - 1) 0 0
    omega
  · intro transient fn
    unfold retry_run
    have := retry_go_sleeps_lt transient fn ((max 1 retries).toNat - 1) 0 0
    omega
  · intro transient fn hfn ht
    unfold retry_run
    rcases hrem : (max 1 retries).toNat - 1 with _ | r
    · rw [retry_go_err_zero hfn]
      exact ⟨rfl, rfl⟩
    · rw [retry_go_err_succ_false hfn ht]
      exact ⟨rfl, rfl⟩

theorem C4_retry_policy_witness :
    ((retry_run (fun _ => true) 2 (fails_then_ok 1 false true)).result
        = Except.ok true ↔ ((1 : ℕ) : ℤ) < 2) ∧
    ((retry_run (fun _ => true) 2 (fails_then_ok 3 false true)).attempts : ℤ)
        ≤ max 1 2 ∧
    (retry_run (fun _ => true) 2 (fails_then_ok 3 false true)).sleeps
        < (retry_run (fun _ => true) 2 (fails_then_ok 3 false true)).attempts ∧
    ((retry_run (fun _ => false) 2 (fails_then_ok 1 false true)).result
        = Except.error false ∧
     (retry_run (fun _ => false) 2 (fails_then_ok 1 false true)).attempts = 1) :=
  ⟨(C4_retry_policy 2 (by norm_num) false true 1).1,
   (C4_retry_policy 2 (by norm_num) false true 1).2.1 _ _,
   (C4_retry_policy 2 (by norm_num) false true 1).2.2.1 _ _,
   (C4_retry_policy 2 (by norm_num) false true 1).2.2.2 _ _
     (by simp [fails_then_ok]) rfl⟩

/-! ## String primitives used by the adapters

Character-level models of Python's `str.lower()`, `str.upper()`,
`str.strip()` and the `in` substring operator (exact for the ASCII
strings these modules handle). -/

/-- Python `str.lower()`. -/
def str_lower (s : String) : String := ⟨s.data.map Char.toLower⟩

/-- Python `str.upper()`. -/
def str_upper (s : String) : String := ⟨s.data.map Char.toUpper⟩

/-- Python `str.strip()`. -/
def str_strip (s : String) : String :=
  ⟨((s.data.dropWhile Char.isWhitespace).reverse.dropWhile
      Char.isWhitespace).reverse⟩

/-- Whether the first list is an initial segment of the second. -/
def starts_with : List Char → List Char → Bool
  | [], _ => true
  | _ :: _, [] => false
  | a :: as, b :: bs => a = b && starts_with as bs

/-- Whether `sub` occurs contiguously inside `s`. -/
def chars_contains (s sub : List Char) : Bool :=
  match s with
  | [] => sub.isEmpty
  | _ :: rest => starts_with sub s || chars_contains rest sub

/-! ## Transient-error classifiers (`gate_v4.py` lines 17–23,
`htx.py` lines 36–42)

Both `_is_transient` helpers lowercase `str(err)` and test membership of
fixed substrings.  The keyword lists are transcribed verbatim. -/

/-- Python's `sub in s` substring test. -/
def contains_sub (s sub : String) : Bool := chars_contains s.data sub.data

/-- The keyword list of `gate_v4.py::_is_transient`. -/
def GATE_TRANSIENT_KEYS : List String :=
  ["timeout", "timed out", "connection", "reset", "econn", "read timed",
   "429", " 5", "server error", "temporarily", "gateway", "unavailable", "rate"]

/-- The keyword list of `htx.py::_is_transient`. -/
def HTX_TRANSIENT_KEYS : List String :=
  ["timeout", "timed out", "connection", "reset", "econn", "read timed",
   "429", " 5", "server error", "temporarily"]

/-- Embeds `gate_v4.py::_is_transient`. -/
def gate_is_transient (msg : String) : Bool :=
  GATE_TRANSIENT_KEYS.any (fun k => contains_sub (str_lower msg) k)

/-- Embeds `htx.py::_is_transient`. -/
def htx_is_transient (msg : String) : Bool :=
  HTX_TRANSIENT_KEYS.any (fun k => contains_sub (str_lower msg) k)

/-- C6 counterexample: the two classifiers are not identical — the
message `"unavailable"` is transient for the Gate adapter but not for the
HTX adapter (and likewise `"gateway"` and `"rate"` separate them). -/
theorem C6_classifiers_differ :
    gate_is_transient "unavailable" = true ∧
    htx_is_transient "unavailable" = false := by
  constructor <;> decide

/-- C6 amended: HTX's transient set is contained in Gate's; the two
classifiers agree on every message whose lowercase form contains none of
the Gate-only substrings `"gateway"`, `"unavailable"`, `"rate"`; and Gate
alone additionally classifies each of those three as transient. -/
theorem C6_classifier_comparison :
    (∀ msg : String, htx_is_transient msg = true → gate_is_transient msg = true) ∧
    (∀ msg : String,
      contains_sub (str_lower msg) "gateway" = false →
      contains_sub (str_lower msg) "unavailable" = false →
      contains_sub (str_lower msg) "rate" = false →
      gate_is_transient msg = htx_is_transient msg) ∧
    (gate_is_transient "gateway" = true ∧ htx_is_transient "gateway" = false) ∧
    (gate_is_transient "rate" = true ∧ htx_is_transient "rate" = false) := by
  have hsplit : ∀ msg : String,
      gate_is_transient msg
        = (htx_is_transient msg
            || (contains_sub (str_lower msg) "gateway"
                || (contains_sub (str_lower msg) "unavailable"
                    || contains_sub (str_lower msg) "rate"))) := by
    intro msg
    simp [gate_is_transient, htx_is_transient, GATE_TRANSIENT_KEYS,
      HTX_TRANSIENT_KEYS, List.any_cons, List.any_nil, Bool.or_assoc]
  refine ⟨?_, ?_, by constructor <;> decide, by constructor <;> decide⟩
  · intro msg h
    rw [hsplit msg, h, Bool.true_or]
  · intro msg h1 h2 h3
    rw [hsplit msg, h1, h2, h3]
    simp

theorem C6_classifier_comparison_witness :
    gate_is_transient "timeout" = true ∧
    gate_is_transient "boom" = htx_is_transient "boom" :=
  ⟨C6_classifier_comparison.1 "timeout" (by decide),
   C6_classifier_comparison.2.1 "boom" (by decide) (by decide) (by decide)⟩

/-! ## `core/exchange_proxy.py` — adapter registry (lines 12–103)

Adapters are abstracted as numbers (only identity matters); a single
ambient `build` function stands for what the registered factories
construct; the `invocations` log records each factory invocation, so
"invoked exactly once" is visible in the state. -/

/-- Embeds `code.strip().lower()` as applied by `register_adapter` and
`get_adapter`. -/
def normCode (s : String) : String := str_lower (str_strip s)

/-- The module-level mutable state of `core/exchange_proxy.py`:
`_registry` (which codes have a factory besides the two defaults),
`_instances`, `_config_ctx` presence, the legacy `_adapter` singleton,
and a log of factory invocations. -/
structure RegistryState where
  registry : String → Bool
  instances : String → Option ℕ
  configSet : Bool
  legacyAdapter : Option ℕ
  invocations : List String

/-- Outcome of `get_adapter`: an adapter, `ExchangeNotRegistered`, or the
`RuntimeError` raised when the registry was never initialized. -/
inductive GetOutcome where
  | ok (adapter : ℕ)
  | exchangeNotRegistered
  | notInitialized
  deriving Repr, DecidableEq

/-- The registry including the two default factories that
`_register_defaults_once` installs (`"gate"`, `"htx"`). -/
def effective_registry (st : RegistryState) : String → Bool :=
  fun c => c == "gate" || c == "htx" || st.registry c

/-- Embeds `get_adapter` (lines 78–103): register defaults, normalize the code,
return a cached instance if present; otherwise if no config context, fall
back to the legacy gate adapter or fail `notInitialized`; otherwise look
up the factory (`exchangeNotRegistered` if absent), invoke it, cache and
return the new instance. -/
def get_adapter (build : String → ℕ) (st : RegistryState) (code : String) :
    GetOutcome × RegistryState :=
  let st1 : RegistryState := { st with registry := effective_registry st }
  let c := normCode code
  match st1.instances c with
  | some a => (.ok a, st1)
  | none =>
    if st1.configSet = false then
      if c = "gate" then
        match st1.legacyAdapter with
        | some a =>
          (.ok a, { st1 with
            instances := fun c' => if c' = c then some a else st1.instances c' })
        | none => (.notInitialized, st1)
      else (.notInitialized, st1)
    else
      if effective_registry st c then
        let a := build c
        (.ok a, { st1 with
          instances := fun c' => if c' = c then some a else st1.instances c'
          invocations := st1.invocations ++ [c] })
      else (.exchangeNotRegistered, st1)

lemma get_adapter_cached (build : String → ℕ) (st : RegistryState)
    (code : String) (a : ℕ) (h : st.instances (normCode code) = some a) :
    get_adapter build st code
      = (.ok a, { st with registry := effective_registry st }) := by
  unfold get_adapter
  simp [h]

lemma get_adapter_fresh (build : String → ℕ) (st : RegistryState)
    (code : String) (h : st.instances (normCode code) = none)
    (hinit : st.configSet = true)
    (hreg : effective_registry st (normCode code) = true) :
    get_adapter build st code =
      (.ok (build (normCode code)),
       { registry := effective_registry st
         instances := fun c' =>
           if c' = normCode code then some (build (normCode code))
           else st.instances c'
         configSet := st.configSet
         legacyAdapter := st.legacyAdapter
         invocations := st.invocations ++ [normCode code] }) := by
  unfold get_adapter
  simp [h, hinit, hreg]

lemma get_adapter_unregistered (build : String → ℕ) (st : RegistryState)
    (code : String) (h : st.instances (normCode code) = none)
    (hinit : st.configSet = true)
    (hreg : effective_registry st (normCode code) = false) :
    get_adapter build st code
      = (.exchangeNotRegistered,
         { st with registry := effective_registry st }) := by
  unfold get_adapter
  simp [h, hinit, hreg]

/-- C7: After registry initialization (`configSet = true`): a code with
no registered factory (and no cached instance) fails with
`ExchangeNotRegistered` and invokes nothing; the first call for a
registered, un-instantiated code invokes the factory exactly once,
caching and returning its instance; any call for a cached code returns
that identical instance without invoking any factory — hence a second
sequential call after the first returns the same instance with the
invocation log unchanged. -/
theorem C7_registry_get (build : String → ℕ) (st : RegistryState)
    (code : String) (hinit : st.configSet = true) :
    (st.instances (normCode code) = none →
      effective_registry st (normCode code) = false →
      (get_adapter build st code).1 = GetOutcome.exchangeNotRegistered ∧
      (get_adapter build st code).2.invocations = st.invocations) ∧
    (st.instances (normCode code) = none →
      effective_registry st (normCode code) = true →
      (get_adapter build st code).1 = GetOutcome.ok (build (normCode code)) ∧
      (get_adapter build st code).2.instances (normCode code)
        = some (build (normCode code)) ∧
      (get_adapter build st code).2.invocations
        = st.invocations ++ [normCode code]) ∧
    (∀ a, st.instances (normCode code) = some a →
      (get_adapter build st code).1 = GetOutcome.ok a ∧
      (get_adapter build st code).2.instances (normCode code) = some a ∧
      (get_adapter build st code).2.invocations = st.invocations) ∧
    (st.instances (normCode code) = none →
      effective_registry st (normCode code) = true →
      (get_adapter build (get_adapter build st code).2 code).1
        = GetOutcome.ok (build (normCode code)) ∧
      (get_adapter build (get_adapter build st code).2 code).2.invocations
        = (get_adapter build st code).2.invocations) := by
  refine ⟨?_, ?_, ?_, ?_⟩
  · intro hnone hreg
    rw [get_adapter_unregistered build st code hnone hinit hreg]
    exact ⟨rfl, rfl⟩
  · intro hnone hreg
    rw [get_adapter_fresh build st code hnone hinit hreg]
    exact ⟨rfl, by simp, rfl⟩
  · intro a ha
    rw [get_adapter_cached build st code a ha]
    exact ⟨rfl, ha, rfl⟩
  · intro hnone hreg
    have hstep : (get_adapter build st code).2.instances (normCode code)
        = some (build (normCode code)) := by
      rw [get_adapter_fresh build st code hnone hinit hreg]
      simp
    rw [get_adapter_cached build (get_adapter build st code).2 code
        (build (normCode code)) hstep]
    exact ⟨rfl, rfl⟩

theorem C7_registry_get_witness :
    ((get_adapter (fun _ => 7)
        ⟨fun _ => false, fun _ => none, true, none, []⟩ "BTC").1
      = GetOutcome.exchangeNotRegistered ∧
     (get_adapter (fun _ => 7)
        ⟨fun _ => false, fun _ => none, true, none, []⟩ "BTC").2.invocations
      = []) ∧
    ((get_adapter (fun _ => 7)
        ⟨fun _ => false, fun _ => none, true, none, []⟩ " HTX ").1
      = GetOutcome.ok 7 ∧
     (get_adapter (fun _ => 7)
        ⟨fun _ => false, fun _ => none, true, none, []⟩ " HTX ").2.instances
          (normCode " HTX ") = some 7 ∧
     (get_adapter (fun _ => 7)
        ⟨fun _ => false, fun _ => none, true, none, []⟩ " HTX ").2.invocations
      = [] ++ [normCode " HTX "]) ∧
    ((get_adapter (fun _ => 7)
        (get_adapter (fun _ => 7)
          ⟨fun _ => false, fun _ => none, true, none, []⟩ " HTX ").2 " HTX ").1
      = GetOutcome.ok 7 ∧
     (get_adapter (fun _ => 7)
        (get_adapter (fun _ => 7)
          ⟨fun _ => false, fun _ => none, true, none, []⟩ " HTX ").2 " HTX ").2.invocations
      = (get_adapter (fun _ => 7)
          ⟨fun _ => false, fun _ => none, true, none, []⟩ " HTX ").2.invocations) := by
  have h1 := C7_registry_get (fun _ => 7)
    ⟨fun _ => false, fun _ => none, true, none, []⟩ "BTC" rfl
  have h2 := C7_registry_get (fun _ => 7)
    ⟨fun _ => false, fun _ => none, true, none, []⟩ " HTX " rfl
  have hb : normCode " HTX " = "htx" := by decide
  refine ⟨h1.1 rfl (by decide), ?_, ?_⟩
  · have := h2.2.1 rfl (by rw [hb]; decide)
    rw [hb] at this
    exact this
  · have := h2.2.2.2 rfl (by rw [hb]; decide)
    rw [hb] at this
    exact this

/-! ## `core/adapters/htx.py` — balances map, available balance, server
time -/

/-- One element of the HTX `/v1/account/accounts/{id}/balance` response
list: `{"type": ..., "currency": ..., "balance": ...}`. -/
structure HTXBalanceEntry where
  type : String
  currency : String
  balance : ℚ

/-- Embeds `out[cc] = out.get(cc, Decimal("0")) + bal` on an association list. -/
def bump (m : List (String × ℚ)) (k : String) (v : ℚ) : List (String × ℚ) :=
  match m with
  | [] => [(k, v)]
  | (k', v') :: rest =>
    if k' = k then (k', v' + v) :: rest else (k', v') :: bump rest k v

/-- Embeds `HTXAdapter._balances_map` (htx.py lines 183–198): keep entries whose
`type` is `"trade"` or `"frozen"` and sum their balances per uppercased
currency. -/
def balances_map (lst : List HTXBalanceEntry) : List (String × ℚ) :=
  lst.foldl
    (fun out it =>
      let t := str_lower it.type
      if t = "trade" ∨ t = "frozen" then
        bump out (str_upper it.currency) it.balance
      else out)
    []

/-- Embeds `HTXAdapter.get_available` (htx.py lines 492–494). -/
def htx_get_available (lst : List HTXBalanceEntry) (asset : String) : ℚ :=
  (((balances_map lst).lookup (str_upper asset)).getD 0)

/-- Modelled from the spec: `available_balance(asset) -> Decimal` is the
free (non-locked) balance, i.e. only entries of type `"trade"` count
(frozen/order-locked funds excluded). -/
def htx_free_balance (lst : List HTXBalanceEntry) (asset : String) : ℚ :=
  lst.foldl
    (fun acc it =>
      if str_lower it.type = "trade" ∧ str_upper it.currency = str_upper asset
      then acc + it.balance
      else acc)
    0

/-- C5 (the claim fails on the code): for a balances response holding
a `trade` (free) entry of 5 USDT and a `frozen` entry of 3 USDT, the HTX
adapter's `get_available` returns 8 — the sum of free and frozen — while
the free (non-locked) balance is 5. -/
theorem C5_htx_available_includes_frozen :
    htx_get_available
      [⟨"trade", "usdt", 5⟩, ⟨"frozen", "usdt", 3⟩] "USDT" = 8 ∧
    htx_free_balance
      [⟨"trade", "usdt", 5⟩, ⟨"frozen", "usdt", 3⟩] "USDT" = 5 ∧
    (8 : ℚ) ≠ 5 := by
  refine ⟨?_, ?_, by norm_num⟩
  · simp [htx_get_available, balances_map, bump, str_lower, str_upper]
    norm_num
  · simp [htx_free_balance, str_lower, str_upper]

/-- Result of a server-time query: the epoch value and whether any
exchange HTTP request was made to obtain it. -/
structure ServerTimeResult where
  epoch : ℤ
  queried_exchange : Bool

/-- Embeds `HTXAdapter.get_server_time_epoch` (htx.py lines 202–204): returns
`int(time.time())` — the local clock — performing no HTTP request; it is
total and cannot fail. -/
def htx_get_server_time_epoch (local_now : ℤ) : ServerTimeResult :=
  ⟨local_now, false⟩

/-- C10: The HTX adapter's `get_server_time_epoch` always returns the
local clock value and never queries the exchange; being a total function
of the local clock, it cannot fail. -/
theorem C10_htx_server_time_is_local (local_now : ℤ) :
    (htx_get_server_time_epoch local_now).epoch = local_now ∧
    (htx_get_server_time_epoch local_now).queried_exchange = false :=
  ⟨rfl, rfl⟩

end MultiCEX
